import Mathlib

/-!
Verification of the bob assistant daemon against its natural-language
specification.  The definitions below translate the TypeScript sources
(`src/scheduler/store.ts`, `src/scheduler/schedule.ts`,
`src/scheduler/index.ts`, `src/events/store.ts`, `src/events/dispatcher.ts`,
`src/telegram/reply-stream.ts`, `src/recall/search.ts`) into Lean.

Conventions of the embedding:
* Timestamps are epoch milliseconds represented as `Int`.  The sources store
  ISO-8601 strings produced by `Date.toISOString()`; those strings compare
  lexicographically in the same order as the instants they denote, so `≤` on
  `Int` models the SQL comparisons on the text columns.
* SQLite tables are lists of row records; `ORDER BY c ASC LIMIT n` is
  modelled by `insertionSort` on the column followed by `take n`.
* External collaborators (the cron-parser library, the Telegram transport,
  the engines, the markdown renderer) are modelled by explicit parameters
  or oracle structures, never by the repository's own logic.
-/

/-- `schedule_kind` column values `"at" | "every" | "cron"`
(`at` is a Lean keyword, hence the `K` suffix). -/
inductive ScheduleKind
  | atK
  | everyK
  | cronK
deriving DecidableEq, Repr

/-- `job_type` column values. -/
inductive JobType
  | send_message
  | agent_turn
  | script
deriving DecidableEq, Repr

/-- A parsed schedule spec.  The source keeps `schedule_spec` as a string and
reparses it with `parseAt` (a `Date`), `parseEvery` (a duration in ms) or the
external cron library; the embedding carries the parsed value, whose
constructor determines the kind. -/
inductive ScheduleSpec
  | atSpec (t : Int)
  | everySpec (ms : Int)
  | cronSpec (c : String)
deriving DecidableEq, Repr

/-- The `schedule_kind` column corresponding to a parsed spec. -/
def ScheduleSpec.kind : ScheduleSpec → ScheduleKind
  | .atSpec _ => .atK
  | .everySpec _ => .everyK
  | .cronSpec _ => .cronK

/-- Oracle for the external `cron-parser` library:
`parseExpression(spec, \x7bcurrentDate: from\x7d).next()` returns the first
tick of the cron expression strictly after `from`.  The three fields after
`next` axiomatise exactly that documented behaviour. -/
structure CronEngine where
  isTick : String → Int → Prop
  next : String → Int → Int
  next_isTick : ∀ c t, isTick c (next c t)
  next_gt : ∀ c t, t < next c t
  next_le : ∀ c t u, isTick c u → t < u → next c t ≤ u

/-- `computeNextRunAt` from `src/scheduler/schedule.ts` (lines 257-277).
For `at`, a spec not after `from` yields `from` itself; for `every`,
`from + interval`; for `cron`, the library's next tick. -/
def computeNextRunAt (cron : CronEngine) : ScheduleSpec → Int → Int
  | .atSpec t, t0 => if t ≤ t0 then t0 else t
  | .everySpec ms, t0 => t0 + ms
  | .cronSpec c, t0 => cron.next c t0

/-- A row of the `jobs` table (`src/scheduler/store.ts`, `ensureSchema`).
`payload` is kept abstract except for the `urgent` flag, the only payload
field the scheduler's control flow reads; `next_run_at` is `NOT NULL` in the
schema, hence `Int` rather than `Option Int`. -/
structure JobRow where
  id : Nat
  chatId : Int
  schedule : ScheduleSpec
  jobType : JobType
  urgent : Bool
  enabled : Bool
  nextRunAt : Int
  lastRunAt : Option Int
deriving DecidableEq, Repr

/-- The SQL predicate of `selectDue`: `enabled = 1 AND next_run_at <= ?`. -/
def dueB (now : Int) (r : JobRow) : Bool :=
  r.enabled && decide (r.nextRunAt ≤ now)

/-- `selectDue.all(...)`: due rows ordered by `next_run_at ASC`, limited. -/
def selectDue (s : List JobRow) (now : Int) (limit : Nat) : List JobRow :=
  ((s.filter (dueB now)).insertionSort (fun a b => a.nextRunAt ≤ b.nextRunAt)).take limit

/-- `claimDueJobs` from `src/scheduler/store.ts` (lines 80-114): inside one
transaction, select the due rows, flip `enabled = 0` for the selected rows
whose kind is `at`, and return the selected rows with the returned record's
`enabled` field already reflecting the flip.  Returns (claimed rows, new
table state). -/
def claimDueJobs (s : List JobRow) (now : Int) (limit : Nat) :
    List JobRow × List JobRow :=
  let rows := selectDue s now limit
  if rows = [] then ([], s)
  else
    let atIds : List Nat := (rows.filter (fun r => r.schedule.kind == .atK)).map (·.id)
    let s' := s.map (fun r => if r.id ∈ atIds then { r with enabled := false } else r)
    (rows.map (fun r => { r with enabled := r.enabled && !(atIds.contains r.id) }), s')

/-- `updateAfterRun` from `src/scheduler/store.ts` (lines 237-239):
`UPDATE jobs SET last_run_at = ?, next_run_at = ?, enabled = ? WHERE id = ?`. -/
def updateAfterRun (s : List JobRow) (id : Nat) (lastRunAt nextRunAt : Int)
    (enabled : Bool) : List JobRow :=
  s.map (fun r =>
    if r.id = id then
      { r with lastRunAt := some lastRunAt, nextRunAt := nextRunAt, enabled := enabled }
    else r)

/-- `DndConfig` from `src/dnd/index.ts` (concatenated into
`src/dnd/index.test.ts`): `\x7benabled, start, end\x7d` with `start`/`end`
the "HH:MM" window bounds.  `end` is reserved in Lean, so that field is
named `endTime` here. -/
structure DndConfig where
  enabled : Bool
  start : String
  endTime : String
deriving DecidableEq, Repr

/-- `AdhocDnd` from `src/dnd/index.ts`: an adhoc quiet period, `until` a
Unix timestamp (epoch milliseconds) and an optional reason.  `until` is
reserved in Lean, so that field is named `untilTs` here. -/
structure AdhocDnd where
  untilTs : Int
  reason : Option String
deriving DecidableEq, Repr

/-- The `reason` values of `DndStatus` from `src/dnd/index.ts`:
`"scheduled" | "adhoc" | null`, the `null` case being `Option.none` below. -/
inductive DndReason
  | scheduled
  | adhoc
deriving DecidableEq, Repr

/-- `DndStatus` from `src/dnd/index.ts`: the result type of `isDndActive`.
`endsAt : Date | null` is modelled as epoch milliseconds; the optional
`adhocReason?` field is an `Option String`. -/
structure DndStatus where
  active : Bool
  reason : Option DndReason
  endsAt : Option Int
  adhocReason : Option String
deriving DecidableEq, Repr

/-- The scheduled-window tail of `isDndActive` (`src/dnd/index.ts` lines
80-91), reached when no live adhoc entry exists: inactive when the config is
disabled or the current time is outside the window, otherwise active until
`getNextWindowEnd`'s result. -/
def isDndScheduled (config : DndConfig) (inWindow : Bool) (windowEnd : Int) :
    DndStatus :=
  if !config.enabled then
    { active := false, reason := none, endsAt := none, adhocReason := none }
  else if inWindow then
    { active := true, reason := some .scheduled, endsAt := some windowEnd,
      adhocReason := none }
  else
    { active := false, reason := none, endsAt := none, adhocReason := none }

/-- `isDndActive` from `src/dnd/index.ts` (lines 58-92), with its external
dependencies passed explicitly: `adhoc` is the state `loadDndState` read from
`dnd-state.json` (`none` when the file is absent or unparsable), and the
scheduled-window computations `isInTimeWindow` / `getNextWindowEnd` — whose
timezone arithmetic goes through `Intl.DateTimeFormat` — enter as `inWindow`
and `windowEnd`.  An expired adhoc entry is cleared on disk before the
scheduled check; that write does not affect the returned status. -/
def isDndActive (config : DndConfig) (adhoc : Option AdhocDnd)
    (inWindow : Bool) (windowEnd : Int) (now : Int) : DndStatus :=
  match adhoc with
  | some a =>
    if a.untilTs > now then
      { active := true, reason := some .adhoc, endsAt := some a.untilTs,
        adhocReason := a.reason }
    else
      isDndScheduled config inWindow windowEnd
  | none => isDndScheduled config inWindow windowEnd

/-- Outcome of the job-type dispatch (lines 264-402 of
`src/scheduler/index.ts`): sending over the Telegram transport, running an
engine or spawning a script.  These are external effects; the oracle records
whether the dispatched body ran to completion or threw. -/
inductive RunOutcome
  | ok
  | err
deriving DecidableEq, Repr

/-- `executeJob` from `src/scheduler/index.ts` (lines 249-409), at the level
of its control flow.  The first component records whether the job body was
dispatched at all (`false` on a DND deferral: no message is sent and no
engine is invoked).  The second is the function's result: `.error ()` models
a thrown error, `.ok nextRun` the returned `Date | null`.
`dnd = none` models an absent `options.dnd`; when present, the status is the
value `isDndActive` (above) returned for the configured window and the adhoc
state on disk. -/
def executeJob (cron : CronEngine) (dnd : Option DndStatus) (job : JobRow)
    (run : RunOutcome) (now : Int) : Bool × Except Unit (Option Int) :=
  match dnd with
  | some status =>
    if !job.urgent && (job.jobType = .send_message || job.jobType = .agent_turn)
        && status.active then
      (false, .ok status.endsAt)
    else
      match run with
      | .err => (true, .error ())
      | .ok =>
        if job.schedule.kind = .atK then (true, .ok none)
        else (true, .ok (some (computeNextRunAt cron job.schedule now)))
  | none =>
    match run with
    | .err => (true, .error ())
    | .ok =>
      if job.schedule.kind = .atK then (true, .ok none)
      else (true, .ok (some (computeNextRunAt cron job.schedule now)))

/-- The per-job continuation of the scheduler tick
(`src/scheduler/index.ts`, lines 135-150): on a resolved `executeJob`,
write back `lastRunAt = now`, `nextRunAt = nextRun ?? job.nextRunAt` and
`enabled = (nextRun ≠ null)`; on a rejected one, only log — the store is
left untouched. -/
def tickWriteback (s : List JobRow) (job : JobRow) (now : Int)
    (res : Except Unit (Option Int)) : List JobRow :=
  match res with
  | .ok nextRun => updateAfterRun s job.id now (nextRun.getD job.nextRunAt) nextRun.isSome
  | .error _ => s

/-- Store operations the scheduler itself performs after a claim: further
claims and write-backs.  Used to state that a one-shot job stays disabled
under any continuation of scheduler activity. -/
inductive StoreOp
  | claim (now : Int) (limit : Nat)
  | update (id : Nat) (lastRunAt nextRunAt : Int) (enabled : Bool)

def applyOp (s : List JobRow) : StoreOp → List JobRow
  | .claim now limit => (claimDueJobs s now limit).2
  | .update id l n e => updateAfterRun s id l n e

def applyOps (s : List JobRow) (ops : List StoreOp) : List JobRow :=
  ops.foldl applyOp s

/-- `id` is disabled in every row of the table that carries it. -/
def disabledIn (s : List JobRow) (id : Nat) : Prop :=
  ∀ r ∈ s, r.id = id → r.enabled = false

/-- Does a store operation write to the row with the given id? -/
def StoreOp.touches (op : StoreOp) (id : Nat) : Prop :=
  match op with
  | .claim _ _ => False
  | .update id' _ _ _ => id' = id

theorem mem_claimDueJobs_fst {s : List JobRow} {now : Int} {limit : Nat} {j : JobRow}
    (hj : j ∈ (claimDueJobs s now limit).1) :
    ∃ r ∈ s, r.enabled = true ∧ r.nextRunAt ≤ now ∧ r.id = j.id ∧ r.schedule = j.schedule := by
  unfold claimDueJobs at hj
  by_cases hrows : selectDue s now limit = []
  · simp [hrows] at hj
  · simp only [if_neg hrows] at hj
    rcases List.mem_map.mp hj with ⟨r, hr, hrj⟩
    have h1 : r ∈ (s.filter (dueB now)).insertionSort (fun a b => a.nextRunAt ≤ b.nextRunAt) :=
      List.take_subset _ _ hr
    have h2 : r ∈ s.filter (dueB now) :=
      ((List.perm_insertionSort _ _).mem_iff).mp h1
    rcases List.mem_filter.mp h2 with ⟨hmem, hdue⟩
    have hdue' : r.enabled = true ∧ r.nextRunAt ≤ now := by simpa [dueB] using hdue
    exact ⟨r, hmem, hdue'.1, hdue'.2, by rw [← hrj], by rw [← hrj]⟩

theorem claimDueJobs_snd_disabled {s : List JobRow} {now : Int} {limit : Nat} {j : JobRow}
    (hj : j ∈ (claimDueJobs s now limit).1) (hat : j.schedule.kind = .atK) :
    disabledIn (claimDueJobs s now limit).2 j.id := by
  unfold claimDueJobs at hj ⊢
  by_cases hrows : selectDue s now limit = []
  · simp [hrows] at hj
  · simp only [if_neg hrows] at hj ⊢
    rcases List.mem_map.mp hj with ⟨r, hr, hrj⟩
    have hrid : r.id ∈ ((selectDue s now limit).filter
        (fun r => r.schedule.kind == .atK)).map JobRow.id := by
      refine List.mem_map.mpr ⟨r, List.mem_filter.mpr ⟨hr, ?_⟩, rfl⟩
      have : r.schedule = j.schedule := by rw [← hrj]
      simp [this, hat]
    intro x hx hxid
    rcases List.mem_map.mp hx with ⟨r0, _, hr0x⟩
    by_cases hmem : r0.id ∈ ((selectDue s now limit).filter
        (fun r => r.schedule.kind == .atK)).map JobRow.id
    · rw [← hr0x]
      simp [hmem]
    · exfalso
      have hxid' : r0.id = j.id := by
        rw [← hr0x] at hxid
        by_cases hm : r0.id ∈ ((selectDue s now limit).filter
            (fun r => r.schedule.kind == .atK)).map JobRow.id
        · simpa [hm] using hxid
        · simpa [hm] using hxid
      have hjid : j.id = r.id := by rw [← hrj]
      rw [hxid', hjid] at hmem
      exact hmem hrid

theorem not_mem_claim_of_disabledIn {s : List JobRow} {now : Int} {limit : Nat} {id : Nat}
    (h : disabledIn s id) :
    id ∉ (claimDueJobs s now limit).1.map JobRow.id := by
  intro hmem
  rcases List.mem_map.mp hmem with ⟨j, hj, hjd⟩
  rcases mem_claimDueJobs_fst hj with ⟨r, hr, hen, _, hrid, _⟩
  have := h r hr (by rw [hrid, hjd])
  rw [this] at hen
  exact Bool.false_ne_true hen

theorem disabledIn_claim {s : List JobRow} {id : Nat} (now : Int) (limit : Nat)
    (h : disabledIn s id) : disabledIn (claimDueJobs s now limit).2 id := by
  unfold claimDueJobs
  by_cases hrows : selectDue s now limit = []
  · simpa [hrows] using h
  · simp only [if_neg hrows]
    intro x hx hxid
    rcases List.mem_map.mp hx with ⟨r0, hr0, hr0x⟩
    by_cases hmem : r0.id ∈ ((selectDue s now limit).filter
        (fun r => r.schedule.kind == .atK)).map JobRow.id
    · rw [← hr0x]; simp [hmem]
    · have hx0 : x = r0 := by rw [← hr0x]; simp [hmem]
      rw [hx0]
      exact h r0 hr0 (by rw [← hx0]; exact hxid)

theorem disabledIn_update_ne {s : List JobRow} {id id' : Nat} {l n : Int} {e : Bool}
    (h : disabledIn s id) (hne : id' ≠ id) :
    disabledIn (updateAfterRun s id' l n e) id := by
  intro x hx hxid
  rcases List.mem_map.mp hx with ⟨r0, hr0, hr0x⟩
  by_cases hid : r0.id = id'
  · exfalso
    apply hne
    rw [← hxid, ← hr0x]
    simp [hid]
  · have hx0 : x = r0 := by rw [← hr0x]; simp [hid]
    rw [hx0]
    exact h r0 hr0 (by rw [← hx0]; exact hxid)

theorem disabledIn_update_false {s : List JobRow} {id : Nat} {l n : Int} :
    disabledIn (updateAfterRun s id l n false) id := by
  intro x hx hxid
  rcases List.mem_map.mp hx with ⟨r0, _, hr0x⟩
  by_cases hid : r0.id = id
  · rw [← hr0x]; simp [hid]
  · exfalso
    apply hid
    rw [← hxid, ← hr0x]
    simp [hid]

theorem disabledIn_applyOps {s : List JobRow} {id : Nat} (ops : List StoreOp)
    (h : disabledIn s id) (hops : ∀ op ∈ ops, ¬ op.touches id) :
    disabledIn (applyOps s ops) id := by
  induction ops generalizing s with
  | nil => exact h
  | cons op rest ih =>
    have hop := hops op (List.mem_cons_self _ _)
    have hrest : ∀ o ∈ rest, ¬ o.touches id := fun o ho => hops o (List.mem_cons_of_mem _ ho)
    apply ih _ hrest
    cases op with
    | claim now limit => exact disabledIn_claim now limit h
    | update id' l n e =>
      exact disabledIn_update_ne h (fun hc => hop (by simpa [StoreOp.touches] using hc))

/-- Whenever `isDndActive` reports an active status, it carries a concrete
`endsAt` (the adhoc `until` or the scheduled window's end): the `Date | null`
the DND deferral in `executeJob` resolves with is never `null` for an active
status the engine produced. -/
theorem isDndActive_active_endsAt (config : DndConfig) (adhoc : Option AdhocDnd)
    (inWindow : Bool) (windowEnd now : Int) :
    (isDndActive config adhoc inWindow windowEnd now).active = true →
      (isDndActive config adhoc inWindow windowEnd now).endsAt.isSome = true := by
  unfold isDndActive isDndScheduled
  rcases adhoc with _ | a
  · repeat' split
    all_goals simp
  · repeat' split
    all_goals simp

theorem executeJob_dispatched_at {cron : CronEngine} {dnd : Option DndStatus} {job : JobRow}
    {now : Int} (hdisp : (executeJob cron dnd job .ok now).1 = true)
    (hat : job.schedule.kind = .atK) :
    (executeJob cron dnd job .ok now).2 = .ok none := by
  cases dnd with
  | none => simp [executeJob, hat]
  | some st =>
    by_cases hc : (!job.urgent && (decide (job.jobType = .send_message) ||
        decide (job.jobType = .agent_turn)) && st.active) = true
    · rw [executeJob] at hdisp
      simp only [hc, if_true] at hdisp
      cases hdisp
    · rw [executeJob]
      simp only [hc]
      simp [hat]

/-- C9: `computeNextRunAt` is monotone in its `from` argument for every
parsed schedule, and for kind `at` it returns `max(from, spec)`
(`src/scheduler/schedule.ts`, lines 257-277; the cron case uses only the
least-tick-after characterisation of the external library). -/
theorem C9_nextRun_monotone (cron : CronEngine) (sp : ScheduleSpec)
    (t1 t2 s0 t0 : Int) (h : t1 ≤ t2) :
    computeNextRunAt cron sp t1 ≤ computeNextRunAt cron sp t2 ∧
      computeNextRunAt cron (.atSpec s0) t0 = max t0 s0 := by
  constructor
  · cases sp with
    | atSpec t =>
      simp only [computeNextRunAt]
      split <;> split <;> omega
    | everySpec ms => simpa [computeNextRunAt] using h
    | cronSpec c =>
      exact cron.next_le c t1 (cron.next c t2) (cron.next_isTick c t2)
        (lt_of_le_of_lt h (cron.next_gt c t2))
  · simp only [computeNextRunAt]
    split
    · exact (max_eq_left (by assumption)).symm
    · exact (max_eq_right (le_of_not_le (by assumption))).symm

/-- A trivial instantiation of the cron oracle (every integer instant is a
tick), used only to instantiate witnesses. -/
def unitCron : CronEngine where
  isTick := fun _ _ => True
  next := fun _ t => t + 1
  next_isTick := fun _ _ => trivial
  next_gt := fun _ t => lt_add_one t
  next_le := fun _ _ _ _ hu => Int.add_one_le_iff.mpr hu

theorem C9_nextRun_monotone_witness :
    ((3 : Int) ≤ 7) ∧
      (computeNextRunAt unitCron (.atSpec 5) 3 ≤ computeNextRunAt unitCron (.atSpec 5) 7 ∧
        computeNextRunAt unitCron (.atSpec 5) 2 = max 2 5) :=
  ⟨by decide, C9_nextRun_monotone unitCron (.atSpec 5) 3 7 5 2 (by decide)⟩

/-- A recurring (`every`) job that is due: used to refute C1 as stated. -/
def c1Job : JobRow :=
  { id := 1, chatId := 10, schedule := .everySpec 60000, jobType := .send_message,
    urgent := false, enabled := true, nextRunAt := 0, lastRunAt := none }

/-- C1 counterexample: two back-to-back `claimDueJobs` calls with the same
`now` both return the job with id 1 (an enabled `every` job stays enabled
with an unchanged `next_run_at` inside the claim transaction), so the
returned id multisets are not disjoint. -/
theorem C1_counterexample :
    1 ∈ ((claimDueJobs [c1Job] 0 10).1.map JobRow.id) ∧
      1 ∈ ((claimDueJobs (claimDueJobs [c1Job] 0 10).2 0 10).1.map JobRow.id) := by
  decide

/-- C1 amended: for jobs of kind `at` the guarantee does hold — an `at` job
returned by one claim is disabled inside the same transaction and can never
be returned by the following claim call. -/
theorem C1_at_claims_disjoint (s : List JobRow) (now : Int) (limit1 limit2 : Nat)
    (j : JobRow) (hj : j ∈ (claimDueJobs s now limit1).1)
    (hat : j.schedule.kind = .atK) :
    j.id ∉ (claimDueJobs (claimDueJobs s now limit1).2 now limit2).1.map JobRow.id :=
  not_mem_claim_of_disabledIn (claimDueJobs_snd_disabled hj hat)

/-- A one-shot (`at`) job that is due, for the C1/C2 witnesses. -/
def c1AtJob : JobRow :=
  { id := 3, chatId := 10, schedule := .atSpec 0, jobType := .send_message,
    urgent := false, enabled := true, nextRunAt := 0, lastRunAt := none }

theorem C1_at_claims_disjoint_witness :
    ({ c1AtJob with enabled := false } ∈ (claimDueJobs [c1AtJob] 0 10).1 ∧
        ScheduleSpec.kind ({ c1AtJob with enabled := false } : JobRow).schedule = .atK) ∧
      JobRow.id ({ c1AtJob with enabled := false } : JobRow) ∉
        (claimDueJobs (claimDueJobs [c1AtJob] 0 10).2 0 10).1.map JobRow.id :=
  ⟨by decide, C1_at_claims_disjoint [c1AtJob] 0 10 10 _ (by decide) (by decide)⟩

/-- C2: an `at` job that has been claimed and whose body was then dispatched
successfully (not DND-deferred, no thrown error) is disabled by the tick's
write-back, and stays disabled — hence is never returned again by
`claimDueJobs` — under any further sequence of scheduler store operations
that does not write that job id. -/
theorem C2_at_job_terminal (cron : CronEngine) (dnd : Option DndStatus)
    (s : List JobRow) (now nowExec nowWb now3 : Int) (limit limit3 : Nat)
    (j : JobRow) (ops : List StoreOp)
    (hj : j ∈ (claimDueJobs s now limit).1)
    (hat : j.schedule.kind = .atK)
    (hdisp : (executeJob cron dnd j .ok nowExec).1 = true)
    (hops : ∀ op ∈ ops, ¬ op.touches j.id) :
    disabledIn
      (tickWriteback (claimDueJobs s now limit).2 j nowWb
        (executeJob cron dnd j .ok nowExec).2) j.id ∧
    j.id ∉ (claimDueJobs
      (applyOps
        (tickWriteback (claimDueJobs s now limit).2 j nowWb
          (executeJob cron dnd j .ok nowExec).2) ops) now3 limit3).1.map JobRow.id := by
  have hres := executeJob_dispatched_at hdisp hat
  have h2 : disabledIn
      (tickWriteback (claimDueJobs s now limit).2 j nowWb
        (executeJob cron dnd j .ok nowExec).2) j.id := by
    rw [hres]
    exact disabledIn_update_false
  exact ⟨h2, not_mem_claim_of_disabledIn (disabledIn_applyOps ops h2 hops)⟩

theorem C2_at_job_terminal_witness :
    ({ c1AtJob with id := 4, enabled := false } ∈
        (claimDueJobs [{ c1AtJob with id := 4 }] 0 10).1 ∧
      ScheduleSpec.kind ({ c1AtJob with id := 4, enabled := false } : JobRow).schedule = .atK ∧
      (executeJob unitCron none { c1AtJob with id := 4, enabled := false } .ok 50).1 = true) ∧
    (disabledIn
        (tickWriteback (claimDueJobs [{ c1AtJob with id := 4 }] 0 10).2
          { c1AtJob with id := 4, enabled := false } 60
          (executeJob unitCron none { c1AtJob with id := 4, enabled := false } .ok 50).2) 4 ∧
      4 ∉ (claimDueJobs
        (applyOps
          (tickWriteback (claimDueJobs [{ c1AtJob with id := 4 }] 0 10).2
            { c1AtJob with id := 4, enabled := false } 60
            (executeJob unitCron none { c1AtJob with id := 4, enabled := false } .ok 50).2) [])
        999 10).1.map JobRow.id) :=
  ⟨by decide,
    C2_at_job_terminal unitCron none [{ c1AtJob with id := 4 }] 0 50 60 999 10 10
      { c1AtJob with id := 4, enabled := false } [] (by decide) (by decide) (by decide)
      (by simp)⟩

/-- A due recurring `send_message` job with `lastRunAt = null`, used against
C3 (DND deferral). -/
def c3Job : JobRow :=
  { id := 5, chatId := 10, schedule := .everySpec 60000, jobType := .send_message,
    urgent := false, enabled := true, nextRunAt := 0, lastRunAt := none }

/-- The DND status used against C3: what `isDndActive` returns inside an
enabled scheduled window ending at instant 5000, with no adhoc entry on
disk. -/
def c3Dnd : DndStatus :=
  isDndActive { enabled := true, start := "22:00", endTime := "08:00" }
    none true 5000 1000

/-- C3 counterexample: a non-urgent `send_message` job deferred by DND is
indeed not dispatched and gets `nextRunAt = endsAt`, but the tick's
write-back also sets `lastRunAt` to the tick's `now` (here 1000) — the
stored `lastRunAt` does not stay `null` as the claim requires. -/
theorem C3_counterexample :
    (executeJob unitCron (some c3Dnd) c3Job .ok 1000).1 = false ∧
      (tickWriteback [c3Job] c3Job 1000
          (executeJob unitCron (some c3Dnd) c3Job .ok 1000).2).map JobRow.lastRunAt =
        [some 1000] ∧
      c3Job.lastRunAt = none := by
  decide

/-- C3 amended: when DND is active at execution time and the job is a
non-urgent `send_message`/`agent_turn`, the body is not dispatched (no
message, no engine), `executeJob` resolves with the window's `endsAt`, and
the tick's write-back is exactly
`updateAfterRun(id, lastRunAt = now, nextRunAt = endsAt, enabled = true)` —
i.e. `lastRunAt` is overwritten with the tick's `now`, not left unchanged. -/
theorem C3_dnd_defer (cron : CronEngine) (st : DndStatus) (job : JobRow)
    (s : List JobRow) (now nowT e : Int) (run : RunOutcome)
    (hactive : st.active = true) (hurg : job.urgent = false)
    (htype : job.jobType = .send_message ∨ job.jobType = .agent_turn)
    (hends : st.endsAt = some e) :
    (executeJob cron (some st) job run now).1 = false ∧
      (executeJob cron (some st) job run now).2 = .ok (some e) ∧
      tickWriteback s job nowT (executeJob cron (some st) job run now).2 =
        updateAfterRun s job.id nowT e true := by
  have hcond : (!job.urgent && (decide (job.jobType = .send_message) ||
      decide (job.jobType = .agent_turn)) && st.active) = true := by
    rcases htype with h | h <;> simp [hurg, h, hactive]
  have h1 : executeJob cron (some st) job run now = (false, .ok st.endsAt) := by
    simp only [executeJob, hcond, if_true]
  refine ⟨by rw [h1], by rw [h1, hends], ?_⟩
  rw [h1, hends]
  rfl

theorem C3_dnd_defer_witness :
    (c3Dnd.active = true ∧ c3Job.urgent = false ∧
        (c3Job.jobType = .send_message ∨ c3Job.jobType = .agent_turn) ∧
        c3Dnd.endsAt = some 5000) ∧
      ((executeJob unitCron (some c3Dnd) c3Job .ok 1000).1 = false ∧
        (executeJob unitCron (some c3Dnd) c3Job .ok 1000).2 = .ok (some 5000) ∧
        tickWriteback [c3Job] c3Job 1000 (executeJob unitCron (some c3Dnd) c3Job .ok 1000).2 =
          updateAfterRun [c3Job] c3Job.id 1000 5000 true) :=
  ⟨⟨rfl, rfl, Or.inl rfl, rfl⟩,
    C3_dnd_defer unitCron c3Dnd c3Job [c3Job] 1000 1000 5000 .ok rfl rfl
      (Or.inl rfl) rfl⟩

/-- A due one-shot (`at`) job used against C4. -/
def c4Job : JobRow :=
  { id := 6, chatId := 10, schedule := .atSpec 0, jobType := .send_message,
    urgent := false, enabled := true, nextRunAt := 0, lastRunAt := none }

/-- C4 counterexample: an `at` job is claimed (and disabled by the claim
transaction); its execution throws, so no write-back happens — but a later
`claimDueJobs`, at any later `now`, returns the empty list: the one-shot job
is not retried, contradicting "this holds for every job kind, including
kind = at". -/
theorem C4_counterexample :
    ({ c4Job with enabled := false } ∈ (claimDueJobs [c4Job] 0 10).1) ∧
      tickWriteback (claimDueJobs [c4Job] 0 10).2 { c4Job with enabled := false } 0
          (Except.error ()) = (claimDueJobs [c4Job] 0 10).2 ∧
      (claimDueJobs (claimDueJobs [c4Job] 0 10).2 999999 10).1 = [] := by
  decide

theorem id_mem_claim_of_mem_selectDue {s : List JobRow} {now : Int} {limit : Nat}
    {r : JobRow} (hr : r ∈ selectDue s now limit) :
    r.id ∈ (claimDueJobs s now limit).1.map JobRow.id := by
  have hne : selectDue s now limit ≠ [] := List.ne_nil_of_mem hr
  unfold claimDueJobs
  simp only [if_neg hne]
  exact List.mem_map.mpr ⟨_, List.mem_map.mpr ⟨r, hr, rfl⟩, rfl⟩

/-- C4 amended: a failing run performs no write-back (the store after the
failure is the post-claim store unchanged), and for jobs of kind `every` or
`cron` the claimed row — still enabled, with its `nextRunAt` untouched —
is returned again by a later `claimDueJobs`; for kind `at` the claim-time
flip has already disabled the job (see the counterexample). -/
theorem C4_failed_run_retries (s : List JobRow) (now now2 nowT : Int)
    (limit limit2 : Nat) (r jf : JobRow)
    (hNodup : (s.map JobRow.id).Nodup)
    (hr : r ∈ s) (hen : r.enabled = true) (hdue : r.nextRunAt ≤ now)
    (hkind : r.schedule.kind ≠ .atK) (hn2 : now ≤ now2)
    (hlim : (((claimDueJobs s now limit).2).filter (dueB now2)).length ≤ limit2) :
    tickWriteback (claimDueJobs s now limit).2 jf nowT (.error ()) =
        (claimDueJobs s now limit).2 ∧
      r ∈ (claimDueJobs s now limit).2 ∧
      r.id ∈ (claimDueJobs (claimDueJobs s now limit).2 now2 limit2).1.map JobRow.id := by
  have hinj := List.inj_on_of_nodup_map hNodup
  -- r's id is not among the ids of claimed `at` rows
  have hAtIds : ∀ q ∈ (selectDue s now limit).filter
      (fun x => x.schedule.kind == .atK), q.id ≠ r.id := by
    intro q hq hqr
    rcases List.mem_filter.mp hq with ⟨hqs, hqat⟩
    have hq1 : q ∈ (s.filter (dueB now)).insertionSort
        (fun a b => a.nextRunAt ≤ b.nextRunAt) := List.take_subset _ _ hqs
    have hq2 : q ∈ s := (List.mem_filter.mp
      (((List.perm_insertionSort _ _).mem_iff).mp hq1)).1
    have : q = r := hinj hq2 hr hqr
    rw [this] at hqat
    exact hkind (by simpa using hqat)
  have hpost : r ∈ (claimDueJobs s now limit).2 ∧
      ∀ x ∈ (claimDueJobs s now limit).2, x.id = r.id → x = r := by
    unfold claimDueJobs
    by_cases hrows : selectDue s now limit = []
    · simpa [hrows] using ⟨hr, fun x hx hxid => hinj hx hr hxid⟩
    · simp only [if_neg hrows]
      have hrid : r.id ∉ ((selectDue s now limit).filter
          (fun x => x.schedule.kind == .atK)).map JobRow.id := by
        intro hmem
        rcases List.mem_map.mp hmem with ⟨q, hq, hqid⟩
        exact hAtIds q hq hqid
      constructor
      · refine List.mem_map.mpr ⟨r, hr, ?_⟩
        simp [hrid]
      · intro x hx hxid
        rcases List.mem_map.mp hx with ⟨x0, hx0, hx0x⟩
        by_cases hm : x0.id ∈ ((selectDue s now limit).filter
            (fun x => x.schedule.kind == .atK)).map JobRow.id
        · exfalso
          have : x.id = x0.id := by rw [← hx0x]; simp [hm]
          rw [this] at hxid
          rw [hxid] at hm
          exact hrid hm
        · have hxx0 : x = x0 := by rw [← hx0x]; simp [hm]
          rw [hxx0]
          exact hinj hx0 hr (by rw [← hxx0]; exact hxid)
  refine ⟨rfl, hpost.1, ?_⟩
  -- the later claim returns every due row, r among them
  have hrdue2 : dueB now2 r = true := by
    simp [dueB, hen]
    omega
  have hrfilter : r ∈ ((claimDueJobs s now limit).2).filter (dueB now2) :=
    List.mem_filter.mpr ⟨hpost.1, hrdue2⟩
  have hrsorted : r ∈ (((claimDueJobs s now limit).2).filter (dueB now2)).insertionSort
      (fun a b => a.nextRunAt ≤ b.nextRunAt) :=
    ((List.perm_insertionSort _ _).mem_iff).mpr hrfilter
  have hfull : selectDue ((claimDueJobs s now limit).2) now2 limit2 =
      (((claimDueJobs s now limit).2).filter (dueB now2)).insertionSort
        (fun a b => a.nextRunAt ≤ b.nextRunAt) := by
    unfold selectDue
    apply List.take_of_length_le
    rw [(List.perm_insertionSort _ _).length_eq]
    exact hlim
  have hrsel : r ∈ selectDue ((claimDueJobs s now limit).2) now2 limit2 := by
    rw [hfull]; exact hrsorted
  exact id_mem_claim_of_mem_selectDue hrsel

theorem C4_failed_run_retries_witness :
    (([c1Job].map JobRow.id).Nodup ∧ c1Job ∈ [c1Job] ∧ c1Job.enabled = true ∧
        c1Job.nextRunAt ≤ 0 ∧ ScheduleSpec.kind c1Job.schedule ≠ .atK ∧ (0 : Int) ≤ 100 ∧
        (((claimDueJobs [c1Job] 0 10).2).filter (dueB 100)).length ≤ 10) ∧
      (tickWriteback (claimDueJobs [c1Job] 0 10).2 c1Job 0 (.error ()) =
          (claimDueJobs [c1Job] 0 10).2 ∧
        c1Job ∈ (claimDueJobs [c1Job] 0 10).2 ∧
        c1Job.id ∈ (claimDueJobs (claimDueJobs [c1Job] 0 10).2 100 10).1.map JobRow.id) :=
  ⟨by decide,
    C4_failed_run_retries [c1Job] 0 100 0 10 10 c1Job c1Job (by decide) (by decide)
      (by decide) (by decide) (by decide) (by decide) (by decide)⟩

/-- A row of the `events` table (`src/events/store.ts`, `ensureSchema`).
`payload` is the TEXT column produced by `serializePayload`. -/
structure EventRow where
  id : Nat
  chatId : Int
  threadId : Option Int
  kind : String
  payload : String
  createdAt : Int
  claimedAt : Option Int
  claimToken : Option String
  processedAt : Option Int
deriving DecidableEq, Repr

/-- The pending predicate shared by `countPending` and the claim update:
`processed_at IS NULL AND (claimed_at IS NULL OR claimed_at <= staleBefore)`. -/
def pendingB (staleBefore : Int) (e : EventRow) : Bool :=
  e.processedAt = none &&
    (match e.claimedAt with
     | none => true
     | some t => decide (t ≤ staleBefore))

/-- `countPending` from `src/events/store.ts` (lines 289-294):
`staleBefore = now - 30min`. -/
def countPending (s : List EventRow) (now : Int) : Nat :=
  (s.filter (pendingB (now - 1800000))).length

/-- `claimEvents` from `src/events/store.ts` (lines 295-310): inside one
transaction, stamp `claimed_at = now` and `claim_token = token` on the first
`limit` pending rows in `created_at ASC` order, then return the rows whose
`claim_token` equals the fresh token, again in `created_at ASC` order.
The `randomUUID()` token is a parameter. -/
def claimIds (s : List EventRow) (now staleAfterMs : Int) (limit : Nat) : List Nat :=
  (((s.filter (pendingB (now - staleAfterMs))).insertionSort
      (fun a b => a.createdAt ≤ b.createdAt)).take limit).map (·.id)

def claimEvents (s : List EventRow) (now staleAfterMs : Int) (limit : Nat)
    (token : String) : List EventRow × List EventRow :=
  let ids := claimIds s now staleAfterMs limit
  let s' := s.map (fun e =>
    if e.id ∈ ids then { e with claimedAt := some now, claimToken := some token } else e)
  ((s'.filter (fun e => e.claimToken = some token)).insertionSort
      (fun a b => a.createdAt ≤ b.createdAt), s')

/-- `ackEvents` from `src/events/store.ts` (lines 311-315):
`UPDATE events SET processed_at = ? WHERE bob_id = ? AND claim_token = ?`;
returns the number of matched rows. -/
def ackEvents (s : List EventRow) (token : String) (t : Int) :
    Nat × List EventRow :=
  ((s.filter (fun e => e.claimToken = some token)).length,
    s.map (fun e =>
      if e.claimToken = some token then { e with processedAt := some t } else e))

/-- `releaseClaim` from `src/events/store.ts` (lines 316-319):
`UPDATE events SET claimed_at = NULL, claim_token = NULL
 WHERE bob_id = ? AND claim_token = ?`; returns the number of matched rows. -/
def releaseClaim (s : List EventRow) (token : String) :
    Nat × List EventRow :=
  ((s.filter (fun e => e.claimToken = some token)).length,
    s.map (fun e =>
      if e.claimToken = some token then { e with claimedAt := none, claimToken := none } else e))

/-- C10: `ackEvents` and `releaseClaim` with a token carried by no row
return 0 and leave the table exactly as it was; in general every row whose
`claim_token` differs from the given token is left untouched by both. -/
theorem map_id_of_eq {α : Type} {l : List α} {f : α → α}
    (h : ∀ a ∈ l, f a = a) : l.map f = l := by
  induction l with
  | nil => rfl
  | cons x xs ih =>
    simp only [List.map_cons]
    rw [h x (List.mem_cons_self _ _), ih (fun a ha => h a (List.mem_cons_of_mem _ ha))]

theorem C10_ack_release_noop (s : List EventRow) (token : String) (t : Int)
    (h : ∀ e ∈ s, e.claimToken ≠ some token) :
    ackEvents s token t = (0, s) ∧ releaseClaim s token = (0, s) := by
  have hfilter : s.filter (fun e => e.claimToken = some token) = [] := by
    rw [List.filter_eq_nil_iff]
    intro e he
    simpa using h e he
  have hmapAck : s.map (fun e =>
      if e.claimToken = some token then { e with processedAt := some t } else e) = s :=
    map_id_of_eq (fun e he => by simp [h e he])
  have hmapRel : s.map (fun e =>
      if e.claimToken = some token then { e with claimedAt := none, claimToken := none } else e) = s :=
    map_id_of_eq (fun e he => by simp [h e he])
  constructor
  · unfold ackEvents
    rw [hfilter, hmapAck]
    rfl
  · unfold releaseClaim
    rw [hfilter, hmapRel]
    rfl

/-- A concrete pending event with no claim, for the C10 witness. -/
def c10Event : EventRow :=
  { id := 1, chatId := 10, threadId := none, kind := "task_done", payload := "\x7b\x7d",
    createdAt := 0, claimedAt := none, claimToken := none, processedAt := none }

theorem C10_ack_release_noop_witness :
    ([c10Event].all (fun e => !(e.claimToken == some "tok")) = true) ∧
      (ackEvents [c10Event] "tok" 5 = (0, [c10Event]) ∧
        releaseClaim [c10Event] "tok" = (0, [c10Event])) :=
  ⟨by decide, C10_ack_release_noop [c10Event] "tok" 5 (by decide)⟩

theorem map_eq_map_of_eq {α β : Type} {l : List α} {f g : α → β}
    (h : ∀ a ∈ l, f a = g a) : l.map f = l.map g := by
  induction l with
  | nil => rfl
  | cons x xs ih =>
    simp only [List.map_cons]
    rw [h x (List.mem_cons_self _ _), ih (fun a ha => h a (List.mem_cons_of_mem _ ha))]

/-- A fresh claim token partitions the post-claim table: a row carries the
token exactly when its id was selected by the claim, and every such row was
pending (so its `processed_at` is still NULL) and now has
`claimed_at = now`. -/
theorem claimEvents_token_iff (s : List EventRow) (now staleAfterMs : Int)
    (limit : Nat) (token : String)
    (hNodup : (s.map EventRow.id).Nodup)
    (hFresh : ∀ e ∈ s, e.claimToken ≠ some token) :
    ∀ x ∈ (claimEvents s now staleAfterMs limit token).2,
      (x.claimToken = some token ↔ x.id ∈ claimIds s now staleAfterMs limit) ∧
      (x.claimToken = some token → x.processedAt = none ∧ x.claimedAt = some now) := by
  have hinj := List.inj_on_of_nodup_map hNodup
  intro x hx
  rcases List.mem_map.mp hx with ⟨e, he, hex⟩
  by_cases hid : e.id ∈ claimIds s now staleAfterMs limit
  · have hxval : x = { e with claimedAt := some now, claimToken := some token } := by
      rw [← hex]; simp [hid]
    have hpend : pendingB (now - staleAfterMs) e = true := by
      rcases List.mem_map.mp hid with ⟨p, hp, hpid⟩
      have hp1 : p ∈ (s.filter (pendingB (now - staleAfterMs))).insertionSort
          (fun a b => a.createdAt ≤ b.createdAt) := List.take_subset _ _ hp
      have hp2 := List.mem_filter.mp (((List.perm_insertionSort _ _).mem_iff).mp hp1)
      have : p = e := hinj hp2.1 he hpid
      rw [← this]
      exact hp2.2
    have hpr : e.processedAt = none := by
      have := (Bool.and_eq_true _ _).mp hpend
      simpa using this.1
    constructor
    · rw [hxval]
      simpa using hid
    · intro _
      rw [hxval]
      simpa using hpr
  · have hxval : x = e := by rw [← hex]; simp [hid]
    constructor
    · rw [hxval]
      constructor
      · intro hc
        exact absurd hc (hFresh e he)
      · intro hmem
        exact absurd hmem hid
    · intro hc
      rw [hxval] at hc
      exact absurd hc (hFresh e he)

/-- `groupEvents` from `src/events/dispatcher.ts` (lines 513-532): group the
claimed events by `(chatId, threadId)`, preserving first-occurrence group
order and event order within a group. -/
def groupEvents (events : List EventRow) :
    List ((Int × Option Int) × List EventRow) :=
  events.foldl (fun groups e =>
    let key := (e.chatId, e.threadId)
    if groups.any (fun g => g.1 == key) then
      groups.map (fun g => if g.1 == key then (g.1, g.2 ++ [e]) else g)
    else groups ++ [(key, [e])]) []

/-- The dispatcher's per-group body (prompt assembly, `streamAgentReply`
with the engine and the Telegram transport) is external; the oracle returns
`true` when the group is dispatched without a thrown error.  `runGroups`
is the sequential loop, stopping at the first thrown error. -/
def runGroups (dispatch : (Int × Option Int) × List EventRow → Bool) :
    List ((Int × Option Int) × List EventRow) → Bool
  | [] => true
  | g :: gs => if dispatch g then runGroups dispatch gs else false

/-- Result of one `processEvents` run: the final table, whether
`ackEvents(claimToken)` ran, whether `releaseClaim(claimToken)` ran, and
whether the error was rethrown to the scheduler tick. -/
structure DispatchResult where
  store : List EventRow
  acked : Bool
  released : Bool
  threw : Bool
deriving DecidableEq, Repr

/-- `processEvents` from `src/events/dispatcher.ts` (lines 423-511):
claim all pending events (default limit 20, stale window 30 min); if none,
return; otherwise dispatch the conversation groups in order and, if every
group succeeded, ack the claim; if any group threw, release the claim and
rethrow. -/
def processEvents (s : List EventRow) (now : Int) (token : String)
    (heartbeatEnabled : Bool) (ackTime : Int)
    (dispatch : (Int × Option Int) × List EventRow → Bool) : DispatchResult :=
  if !heartbeatEnabled then ⟨s, false, false, false⟩
  else
    let claimed := claimEvents s now 1800000 20 token
    if claimed.1 = [] then ⟨claimed.2, false, false, false⟩
    else if runGroups dispatch (groupEvents claimed.1) then
      ⟨(ackEvents claimed.2 token ackTime).2, true, false, false⟩
    else
      ⟨(releaseClaim claimed.2 token).2, false, true, true⟩

/-- Every event returned by the claim is marked processed at `t`. -/
def allProcessedAt (s : List EventRow) (ids : List Nat) (t : Int) : Prop :=
  ∀ e ∈ s, e.id ∈ ids → e.processedAt = some t

/-- Every event of the claim is back to pending: unclaimed and unprocessed. -/
def allReleased (s : List EventRow) (ids : List Nat) : Prop :=
  ∀ e ∈ s, e.id ∈ ids → e.processedAt = none ∧ e.claimedAt = none ∧ e.claimToken = none

theorem mem_claimed_fst {s : List EventRow} {now sa : Int} {lim : Nat} {token : String}
    {y : EventRow} (hy : y ∈ (claimEvents s now sa lim token).1) :
    y ∈ (claimEvents s now sa lim token).2 ∧ y.claimToken = some token := by
  have hy' : y ∈ (((claimEvents s now sa lim token).2).filter
      (fun e => e.claimToken = some token)).insertionSort
        (fun a b => a.createdAt ≤ b.createdAt) := hy
  have hy2 := List.mem_filter.mp (((List.perm_insertionSort _ _).mem_iff).mp hy')
  exact ⟨hy2.1, by simpa using hy2.2⟩

/-- C6: on a non-empty claim, if every conversation group dispatches without
a thrown error the whole claim is acked (every claimed event is marked
processed at the ack time, `releaseClaim` never runs); if any group throws,
the claim is released and rethrown (every claimed event is back to pending
and none is marked processed, `ackEvents` never runs). -/
theorem C6_dispatch_ack_or_release (s : List EventRow) (now ackTime : Int)
    (token : String) (dispatch : (Int × Option Int) × List EventRow → Bool)
    (hNodup : (s.map EventRow.id).Nodup)
    (hFresh : ∀ e ∈ s, e.claimToken ≠ some token)
    (hne : (claimEvents s now 1800000 20 token).1 ≠ []) :
    (runGroups dispatch (groupEvents (claimEvents s now 1800000 20 token).1) = true →
      processEvents s now token true ackTime dispatch =
        ⟨(ackEvents (claimEvents s now 1800000 20 token).2 token ackTime).2,
          true, false, false⟩ ∧
      allProcessedAt (processEvents s now token true ackTime dispatch).store
        ((claimEvents s now 1800000 20 token).1.map EventRow.id) ackTime) ∧
    (runGroups dispatch (groupEvents (claimEvents s now 1800000 20 token).1) = false →
      processEvents s now token true ackTime dispatch =
        ⟨(releaseClaim (claimEvents s now 1800000 20 token).2 token).2,
          false, true, true⟩ ∧
      allReleased (processEvents s now token true ackTime dispatch).store
        ((claimEvents s now 1800000 20 token).1.map EventRow.id)) := by
  have htok := claimEvents_token_iff s now 1800000 20 token hNodup hFresh
  have hIdsSub : ∀ i ∈ (claimEvents s now 1800000 20 token).1.map EventRow.id,
      i ∈ claimIds s now 1800000 20 := by
    intro i hi
    rcases List.mem_map.mp hi with ⟨y, hy, hyi⟩
    have hy2 := mem_claimed_fst hy
    rw [← hyi]
    exact ((htok y hy2.1).1).mp hy2.2
  constructor
  · intro hrun
    have hPE : processEvents s now token true ackTime dispatch =
        ⟨(ackEvents (claimEvents s now 1800000 20 token).2 token ackTime).2,
          true, false, false⟩ := by
      unfold processEvents
      rw [if_neg (by simp)]
      rw [if_neg hne, if_pos hrun]
    refine ⟨hPE, ?_⟩
    rw [hPE]
    intro e he hid
    rcases List.mem_map.mp he with ⟨x, hx, hxe⟩
    have hxid : e.id = x.id := by
      rw [← hxe]
      by_cases hc : x.claimToken = some token <;> simp [hc]
    have hxtok : x.claimToken = some token := by
      apply ((htok x hx).1).mpr
      rw [← hxid]
      exact hIdsSub e.id hid
    rw [← hxe]
    simp [hxtok]
  · intro hrun
    have hPE : processEvents s now token true ackTime dispatch =
        ⟨(releaseClaim (claimEvents s now 1800000 20 token).2 token).2,
          false, true, true⟩ := by
      unfold processEvents
      rw [if_neg (by simp)]
      rw [if_neg hne, if_neg (by simp [hrun])]
    refine ⟨hPE, ?_⟩
    rw [hPE]
    intro e he hid
    rcases List.mem_map.mp he with ⟨x, hx, hxe⟩
    have hxid : e.id = x.id := by
      rw [← hxe]
      by_cases hc : x.claimToken = some token <;> simp [hc]
    have hxtok : x.claimToken = some token := by
      apply ((htok x hx).1).mpr
      rw [← hxid]
      exact hIdsSub e.id hid
    have hxpend := (htok x hx).2 hxtok
    rw [← hxe]
    simp [hxtok, hxpend.1]

theorem C6_dispatch_witness :
    (([c10Event].map EventRow.id).Nodup ∧
        [c10Event].all (fun e => !(e.claimToken == some "tk")) = true ∧
        (claimEvents [c10Event] 0 1800000 20 "tk").1 ≠ []) ∧
      (processEvents [c10Event] 0 "tk" true 9 (fun _ => true) =
          ⟨(ackEvents (claimEvents [c10Event] 0 1800000 20 "tk").2 "tk" 9).2,
            true, false, false⟩ ∧
        allProcessedAt (processEvents [c10Event] 0 "tk" true 9 (fun _ => true)).store
          ((claimEvents [c10Event] 0 1800000 20 "tk").1.map EventRow.id) 9) :=
  ⟨by decide,
    (C6_dispatch_ack_or_release [c10Event] 0 9 "tk" (fun _ => true) (by decide)
        (by decide) (by decide)).1 (by decide)⟩

/-- Hexadecimal digit, for JSON control-character escapes. -/
def hexDigitChar (n : Nat) : Char :=
  if n < 10 then Char.ofNat (48 + n) else Char.ofNat (87 + n)

def hex4 (n : Nat) : String :=
  String.mk [hexDigitChar ((n / 4096) % 16), hexDigitChar ((n / 256) % 16),
    hexDigitChar ((n / 16) % 16), hexDigitChar (n % 16)]

/-- The escape of one character inside a JSON string literal, as produced by
the JavaScript `JSON.stringify`. -/
def jsonEscapeChar (c : Char) : String :=
  if c = '"' then "\\\""
  else if c = '\\' then "\\\\"
  else if c = '\n' then "\\n"
  else if c = '\t' then "\\t"
  else if c = '\r' then "\\r"
  else if c = '\x08' then "\\b"
  else if c = '\x0c' then "\\f"
  else if c.toNat < 32 then "\\u" ++ hex4 c.toNat
  else String.singleton c

def jsonQuote (s : String) : String :=
  "\"" ++ String.join (s.toList.map jsonEscapeChar) ++ "\""

/- JSON values, as far as the event payloads need them.  Arrays and objects
carry their own spines (a mutual inductive) so that all functions below are
structurally recursive and evaluate inside the kernel.  Numbers are
restricted to integers: the payload model does not cover floating-point
literals (the claims under study never depend on them). -/
mutual
inductive Json
  | nullJ
  | boolJ (b : Bool)
  | numJ (n : Int)
  | strJ (s : String)
  | arrJ (xs : JsonArr)
  | objJ (kvs : JsonObj)
inductive JsonArr
  | nilA
  | consA (hd : Json) (tl : JsonArr)
inductive JsonObj
  | nilO
  | consO (k : String) (v : Json) (tl : JsonObj)
end

/- `JSON.stringify` (no spacing), on the modelled JSON values. -/
mutual
def Json.render : Json → String
  | .nullJ => "null"
  | .boolJ b => if b then "true" else "false"
  | .numJ n => toString n
  | .strJ s => jsonQuote s
  | .arrJ xs => "[" ++ JsonArr.render xs ++ "]"
  | .objJ kvs => "\x7b" ++ JsonObj.render kvs ++ "\x7d"
def JsonArr.render : JsonArr → String
  | .nilA => ""
  | .consA x .nilA => Json.render x
  | .consA x tl => Json.render x ++ "," ++ JsonArr.render tl
def JsonObj.render : JsonObj → String
  | .nilO => ""
  | .consO k v .nilO => jsonQuote k ++ ":" ++ Json.render v
  | .consO k v tl => jsonQuote k ++ ":" ++ Json.render v ++ "," ++ JsonObj.render tl
end

def jsonWs (c : Char) : Bool := c = ' ' || c = '\n' || c = '\t' || c = '\r'

def skipWs : List Char → List Char
  | [] => []
  | c :: rest => if jsonWs c then skipWs rest else c :: rest

def takeDigits : List Char → (List Char × List Char)
  | [] => ([], [])
  | c :: rest =>
    if c.isDigit then
      let p := takeDigits rest
      (c :: p.1, p.2)
    else ([], c :: rest)

def digitsToNat (ds : List Char) : Nat :=
  ds.foldl (fun a c => a * 10 + (c.toNat - 48)) 0

def parseNum : List Char → Option (Int × List Char)
  | '-' :: rest =>
    match takeDigits rest with
    | ([], _) => none
    | (ds, r) => some (-(digitsToNat ds : Int), r)
  | cs =>
    match takeDigits cs with
    | ([], _) => none
    | (ds, r) => some ((digitsToNat ds : Int), r)

def escChar (e : Char) : Option Char :=
  if e = '"' then some '"'
  else if e = '\\' then some '\\'
  else if e = '/' then some '/'
  else if e = 'n' then some '\n'
  else if e = 't' then some '\t'
  else if e = 'r' then some '\r'
  else if e = 'b' then some '\x08'
  else if e = 'f' then some '\x0c'
  else none

def parseStrChars : List Char → Option (String × List Char)
  | [] => none
  | '"' :: rest => some ("", rest)
  | '\\' :: e :: rest =>
    match escChar e with
    | some c => (parseStrChars rest).map (fun p => (String.singleton c ++ p.1, p.2))
    | none => none
  | c :: rest => (parseStrChars rest).map (fun p => (String.singleton c ++ p.1, p.2))

/- The JavaScript `JSON.parse`, modelled on the integer-number,
`\uXXXX`-free fragment of JSON (sufficient for the event payloads under
study).  The fuel argument bounds the nesting and item count and is
instantiated with the input length, which always suffices. -/
mutual
def parseJ : Nat → List Char → Option (Json × List Char)
  | 0, _ => none
  | fuel + 1, cs =>
    match skipWs cs with
    | 'n' :: 'u' :: 'l' :: 'l' :: rest => some (.nullJ, rest)
    | 't' :: 'r' :: 'u' :: 'e' :: rest => some (.boolJ true, rest)
    | 'f' :: 'a' :: 'l' :: 's' :: 'e' :: rest => some (.boolJ false, rest)
    | '"' :: rest => (parseStrChars rest).map (fun p => (Json.strJ p.1, p.2))
    | '[' :: rest =>
      (match skipWs rest with
       | ']' :: r2 => some (.arrJ .nilA, r2)
       | _ => (parseArrItems fuel rest).map (fun p => (Json.arrJ p.1, p.2)))
    | '\x7b' :: rest =>
      (match skipWs rest with
       | '\x7d' :: r2 => some (.objJ .nilO, r2)
       | _ => (parseObjItems fuel rest).map (fun p => (Json.objJ p.1, p.2)))
    | other => (parseNum other).map (fun p => (Json.numJ p.1, p.2))
def parseArrItems : Nat → List Char → Option (JsonArr × List Char)
  | 0, _ => none
  | fuel + 1, cs =>
    match parseJ fuel cs with
    | none => none
    | some (j, r) =>
      match skipWs r with
      | ',' :: r2 => (parseArrItems fuel r2).map (fun p => (JsonArr.consA j p.1, p.2))
      | ']' :: r2 => some (.consA j .nilA, r2)
      | _ => none
def parseObjItems : Nat → List Char → Option (JsonObj × List Char)
  | 0, _ => none
  | fuel + 1, cs =>
    match skipWs cs with
    | '"' :: rest =>
      (match parseStrChars rest with
       | none => none
       | some (k, r) =>
         match skipWs r with
         | ':' :: r2 =>
           (match parseJ fuel r2 with
            | none => none
            | some (v, r3) =>
              match skipWs r3 with
              | ',' :: r4 => (parseObjItems fuel r4).map (fun p => (JsonObj.consO k v p.1, p.2))
              | '\x7d' :: r4 => some (.consO k v .nilO, r4)
              | _ => none)
         | _ => none)
    | _ => none
end

def jsonParse? (s : String) : Option Json :=
  match parseJ (s.length + 1) s.toList with
  | some (j, rest) => if skipWs rest = [] then some j else none
  | none => none

/-- ASCII whitespace, as the JavaScript `String.prototype.trim` strips it
(the model restricts itself to the ASCII range). -/
def isWsChar (c : Char) : Bool :=
  c = ' ' || c = '\t' || c = '\n' || c = '\r' || c = '\x0b' || c = '\x0c'

/-- The JavaScript `.trim()`, defined over the character list so that it
evaluates inside the kernel. -/
def jsTrim (s : String) : String :=
  String.mk ((((s.toList).dropWhile isWsChar).reverse.dropWhile isWsChar).reverse)

/-- A JavaScript value arriving as an event payload, as the control flow of
`serializePayload` distinguishes them: `undefined`; `null`; a string
(`typeof payload === "string"`); any other JSON-serialisable value, carried
as its JSON tree; or a value on which `JSON.stringify` throws, carried as
its `String(payload)` rendering. -/
inductive JsValue
  | undef
  | jnull
  | strv (s : String)
  | val (j : Json)
  | unser (display : String)

/-- `serializePayload` from `src/events/store.ts` (lines 334-351):
`undefined → "\x7b\x7d"`; a string is trimmed, the empty result stored as
`"\x7b\x7d"`, a JSON-parsable one re-serialised, any other wrapped as
`\x7b"text": trimmed\x7d`; otherwise `JSON.stringify(payload ?? \x7b\x7d)`,
falling back to `\x7b"text": String(payload)\x7d` when stringify throws. -/
def serializePayload : JsValue → String
  | .undef => "\x7b\x7d"
  | .strv s =>
    let trimmed := jsTrim s
    if trimmed = "" then "\x7b\x7d"
    else
      match jsonParse? trimmed with
      | some j => j.render
      | none => (Json.objJ (.consO "text" (.strJ trimmed) .nilO)).render
  | .jnull => (Json.objJ .nilO).render
  | .val j => j.render
  | .unser d => (Json.objJ (.consO "text" (.strJ d) .nilO)).render

/-- The serialisation C5 claims: the stored column is the JSON serialisation
of the given payload, with the literal `"\x7b\x7d"` stored whenever the
payload is empty or invalid (undefined, an empty or whitespace-only string,
or a value that cannot be JSON-serialised). -/
def serializePayloadClaim : JsValue → String
  | .undef => "\x7b\x7d"
  | .strv s => if jsTrim s = "" then "\x7b\x7d" else (Json.strJ s).render
  | .jnull => Json.nullJ.render
  | .val j => j.render
  | .unser _ => "\x7b\x7d"

/-- Input to the event store's `add` (`src/events/store.ts`, lines 172-178);
`createdAt` defaults to the current instant at the call site. -/
structure EventInput where
  chatId : Int
  threadId : Option Int
  kind : String
  payload : JsValue
  createdAt : Int

/-- `addEvent` from `src/events/store.ts` (lines 265-281): insert one row
whose `payload` column is `serializePayload(input.payload)`.  The SQLite
AUTOINCREMENT id is the `nextId` parameter. -/
def addEvent (s : List EventRow) (nextId : Nat) (inp : EventInput) :
    EventRow × List EventRow :=
  let row : EventRow :=
    { id := nextId, chatId := inp.chatId, threadId := inp.threadId, kind := inp.kind,
      payload := serializePayload inp.payload, createdAt := inp.createdAt,
      claimedAt := none, claimToken := none, processedAt := none }
  (row, s ++ [row])

/-- C5 counterexample: for the plain string payload `"hello"` (non-empty,
JSON-serialisable, not itself JSON) the code stores
`\x7b"text":"hello"\x7d`, not the JSON serialisation `"hello"`; and for a
value `JSON.stringify` rejects the code stores `\x7b"text":String(v)\x7d`,
not the claimed `"\x7b\x7d"`. -/
theorem C5_counterexample :
    serializePayload (.strv "hello") ≠ serializePayloadClaim (.strv "hello") ∧
      serializePayload (.strv "hello") = "\x7b\"text\":\"hello\"\x7d" ∧
      serializePayloadClaim (.strv "hello") = "\"hello\"" ∧
      serializePayload (.unser "1n") = "\x7b\"text\":\"1n\"\x7d" ∧
      serializePayloadClaim (.unser "1n") = "\x7b\x7d" := by
  refine ⟨?_, rfl, rfl, rfl, rfl⟩
  decide

/-- C5 amended: `add` stores `serializePayload(payload)` in the payload
column, where `"\x7b\x7d"` is stored for `undefined`, `null` and
empty/whitespace-only strings; a string that parses as JSON is stored as
the re-serialisation of its parse; any other string and any
non-serialisable value is stored wrapped as `\x7b"text": …\x7d`; and any
other serialisable value is stored as its JSON serialisation. -/
theorem C5_payload_serialisation (s : List EventRow) (nextId : Nat)
    (inp : EventInput) (w bad good : String) (j j0 : Json) (d : String)
    (hw : jsTrim w = "")
    (hbadNe : jsTrim bad ≠ "") (hbad : jsonParse? (jsTrim bad) = none)
    (hgoodNe : jsTrim good ≠ "") (hgood : jsonParse? (jsTrim good) = some j) :
    (addEvent s nextId inp).1.payload = serializePayload inp.payload ∧
      (addEvent s nextId inp).2 = s ++ [(addEvent s nextId inp).1] ∧
      serializePayload .undef = "\x7b\x7d" ∧
      serializePayload .jnull = "\x7b\x7d" ∧
      serializePayload (.strv w) = "\x7b\x7d" ∧
      serializePayload (.strv bad) =
        (Json.objJ (.consO "text" (.strJ (jsTrim bad)) .nilO)).render ∧
      serializePayload (.strv good) = j.render ∧
      serializePayload (.val j0) = j0.render ∧
      serializePayload (.unser d) =
        (Json.objJ (.consO "text" (.strJ d) .nilO)).render := by
  refine ⟨rfl, rfl, rfl, rfl, ?_, ?_, ?_, rfl, rfl⟩
  · simp [serializePayload, hw]
  · simp [serializePayload, hbadNe, hbad]
  · simp [serializePayload, hgoodNe, hgood]

theorem C5_payload_serialisation_witness :
    (jsTrim "  " = "" ∧ jsTrim "hello" ≠ "" ∧ jsonParse? "hello" = none ∧
        jsTrim " 5 " ≠ "" ∧ jsonParse? "5" = some (Json.numJ 5)) ∧
      (serializePayload (.strv "  ") = "\x7b\x7d" ∧
        serializePayload (.strv "hello") =
          (Json.objJ (.consO "text" (.strJ "hello") .nilO)).render ∧
        serializePayload (.strv " 5 ") = (Json.numJ 5).render ∧
        serializePayload (.val (Json.boolJ true)) = (Json.boolJ true).render ∧
        serializePayload (.unser "1n") =
          (Json.objJ (.consO "text" (.strJ "1n") .nilO)).render) :=
  ⟨⟨rfl, by decide, rfl, by decide, rfl⟩,
    by
      have h := C5_payload_serialisation [] 1
        ⟨10, none, "task_done", .undef, 0⟩ "  " "hello" " 5 " (Json.numJ 5)
        (Json.boolJ true) "1n" rfl (by decide) rfl (by decide) rfl
      exact ⟨h.2.2.2.2.1, h.2.2.2.2.2.1, h.2.2.2.2.2.2.1, h.2.2.2.2.2.2.2.1,
        h.2.2.2.2.2.2.2.2⟩⟩

/-- `[[stream: …]]` modes from `src/telegram/reply-directives.ts`. -/
inductive StreamMode
  | edit
  | send
  | off
deriving DecidableEq, Repr

/-- The result of `parseReplyDirectives` followed by `sanitizeUserText` on
the current buffer, as `flush` consumes it: `cleaned` is the sanitised
visible text, the other fields are the parsed directives.  The regex-based
parsing itself (reply-directives.ts lines 26-103, reply-stream.ts lines
600-608) is the identity on directive-free plain text and is kept outside
the model. -/
structure ParsedDirectives where
  cleaned : String
  replyTo : Option Nat
  react : Option String
  streamMode : Option StreamMode
  isSilent : Bool
deriving DecidableEq, Repr

/-- The mutable state of `streamAgentReply`
(`src/telegram/reply-stream.ts`, lines 287-310). -/
structure StreamState where
  mode : StreamMode
  sentMessageId : Option Nat
  lastSentText : String
  lastFlushAt : Int
deriving DecidableEq, Repr

/-- Initial state (lines 303-310): `mode = edit`, nothing sent. -/
def streamInit : StreamState :=
  { mode := .edit, sentMessageId := none, lastSentText := "", lastFlushAt := 0 }

/-- One outbound Telegram call made by a flush.  For the edit-mode path the
recorded text is the pre-render preview handed to
`renderTelegramMarkdown`/`chunkTelegramMessage` (both pure, so equal
previews yield byte-identical outbound texts); for the send-mode path it is
the raw delta, which the source sends unrendered. -/
inductive TransportCall
  | sendMsg (text : String)
  | editMsg (id : Nat) (text : String)
  | reaction (emoji : String)
deriving DecidableEq, Repr

/-- The visible chat text a call carries (`none` for emoji reactions). -/
def TransportCall.visibleText? : TransportCall → Option String
  | .sendMsg t => some t
  | .editMsg _ t => some t
  | .reaction _ => none

/-- JavaScript `s.slice(n)` over the character list. -/
def jsSliceFrom (s : String) (n : Nat) : String := String.mk (s.toList.drop n)

/-- JavaScript `s.slice(0, n)` over the character list. -/
def jsSliceTo (s : String) (n : Nat) : String := String.mk (s.toList.take n)

/-- `flush` from `src/telegram/reply-stream.ts` (lines 350-562), for one
invocation that reaches the mutex free (the source serialises invocations
through `flushInProgress`, so a single execution is a sequence of such
invocations).  `renderChunks` abstracts
`chunkTelegramMessage ∘ renderTelegramMarkdown` (markdown-it is external);
`currentMessageId` is the initiator message id; `newMsgId` the transport's
id for a fresh send, whose success is assumed (edit errors are a transport
failure mode outside this model).  Returns the new state and the outbound
calls of this flush. -/
def flushStep (renderChunks : String → List String) (currentMessageId : Option Nat)
    (newMsgId : Nat) (st0 : StreamState) (p : ParsedDirectives) (now : Int)
    (final : Bool) : StreamState × List TransportCall :=
  let st := match p.streamMode with
    | some m => { st0 with mode := m }
    | none => st0
  if p.isSilent && final then
    (st, match p.react, currentMessageId with
      | some r, some _ => [.reaction r]
      | _, _ => [])
  else if st.mode = .off && !final then (st, [])
  else
    let cleaned := p.cleaned
    if final && jsTrim cleaned = "" && p.react.isSome && currentMessageId.isSome then
      (st, match p.react with
        | some r => [.reaction r]
        | none => [])
    else if jsTrim cleaned = "" then (st, [])
    else if !final && now - st.lastFlushAt < 900 then (st, [])
    else
      let st := { st with lastFlushAt := now }
      if st.mode = .send then
        let delta := jsSliceFrom cleaned st.lastSentText.length
        if jsTrim delta = "" then (st, [])
        else
          let st2 := { st with
            sentMessageId := some (st.sentMessageId.getD newMsgId)
            lastSentText := cleaned }
          (st2, [.sendMsg delta])
      else
        let preview := if final then cleaned else jsSliceTo cleaned 3000
        let chunks := renderChunks preview
        match chunks.head? with
        | none => (st, [])
        | some primary =>
          if st.sentMessageId.isSome && cleaned = st.lastSentText then (st, [])
          else
            let stage :=
              match st.sentMessageId with
              | none => ({ st with sentMessageId := some newMsgId },
                  [TransportCall.sendMsg primary])
              | some mid => (st, [TransportCall.editMsg mid primary])
            let extra := if final && chunks.length > 1 then
                (chunks.drop 1).map TransportCall.sendMsg
              else []
            let reacts := if final && p.react.isSome && currentMessageId.isSome then
                match p.react with
                | some r => [TransportCall.reaction r]
                | none => []
              else []
            ({ stage.1 with lastSentText := cleaned }, stage.2 ++ extra ++ reacts)

/-- One flush invocation of an execution: the transport id available for a
fresh send, the parse of the buffer at that instant, the clock, and whether
this is the final flush. -/
structure FlushCall where
  newMsgId : Nat
  parsed : ParsedDirectives
  now : Int
  final : Bool
deriving DecidableEq, Repr

/-- A whole execution of the streaming reply engine: the flush invocations
in order (the `flushInProgress` mutex serialises them), accumulating the
outbound transport calls. -/
def runFlushes (renderChunks : String → List String) (currentMessageId : Option Nat)
    (st : StreamState) : List FlushCall → StreamState × List TransportCall
  | [] => (st, [])
  | f :: fs =>
    let step := flushStep renderChunks currentMessageId f.newMsgId st f.parsed f.now f.final
    let rest := runFlushes renderChunks currentMessageId step.1 fs
    (rest.1, step.2 ++ rest.2)

/-- The execution refuting C7: deltas stream the plain text `"a"` then
`"b"` (two timed flushes, 900 ms apart), and the engine's final text is
`"a"` — `streamAgentReply` overwrites the buffer with `finalText` before
the final flush, which may differ from the streamed deltas.  No directives,
no silent tokens, plain ASCII: parsing and sanitising are the identity. -/
def c7Calls : List FlushCall :=
  [{ newMsgId := 1, parsed := ⟨"a", none, none, none, false⟩, now := 1000, final := false },
   { newMsgId := 2, parsed := ⟨"ab", none, none, none, false⟩, now := 2000, final := false },
   { newMsgId := 3, parsed := ⟨"a", none, none, none, false⟩, now := 3000, final := true }]

/-- C7 counterexample: the execution sends `"a"`, edits to `"ab"`, then the
final flush edits back to `"a"` — the multiset of visible texts sent or
edited is `["a", "ab", "a"]`, which has a duplicate.  (Each duplicate call
arises from rendering the same preview string, so the outbound bytes are
equal for any pure renderer; the skip guard compares only against the
immediately preceding sent text.) -/
theorem C7_counterexample :
    ((runFlushes (fun s => [s]) none streamInit c7Calls).2.filterMap
        TransportCall.visibleText?) = ["a", "ab", "a"] ∧
      ¬ ((runFlushes (fun s => [s]) none streamInit c7Calls).2.filterMap
          TransportCall.visibleText?).Nodup := by
  constructor
  · rfl
  · decide

theorem jsSliceFrom_length_self (s : String) : jsSliceFrom s s.length = "" := by
  show String.mk (s.toList.drop s.length) = ""
  rw [show s.length = s.toList.length from rfl, List.drop_length]

/-- C7 amended: once a message has been sent, a non-silent, reaction-free
flush whose cleaned text equals the last sent text issues no transport call
at all (in edit mode the content-unchanged guard short-circuits, in send
mode the delta is empty): consecutive flushes never send the same visible
content twice.  Distinct flushes with different cleaned texts may still
carry equal visible texts (see the counterexample). -/
theorem C7_no_resend_unchanged (renderChunks : String → List String)
    (cmi : Option Nat) (newMsgId : Nat) (st : StreamState) (p : ParsedDirectives)
    (now : Int) (final : Bool) (mid : Nat)
    (hsent : st.sentMessageId = some mid)
    (heq : p.cleaned = st.lastSentText)
    (hsil : p.isSilent = false) (hre : p.react = none) :
    (flushStep renderChunks cmi newMsgId st p now final).2 = [] := by
  have hdelta : jsSliceFrom p.cleaned st.lastSentText.length = "" := by
    rw [heq]
    exact jsSliceFrom_length_self _
  unfold flushStep
  cases hm : p.streamMode <;>
  · simp only [hsil, hre, hsent, heq, Bool.false_and, Bool.and_false,
      Option.isSome_none, if_false, Bool.false_eq_true]
    repeat' split
    all_goals
      first
        | rfl
        | simp_all [jsSliceFrom_length_self, show jsTrim "" = "" from rfl]

theorem C7_no_resend_unchanged_witness :
    ((⟨.edit, some 1, "a", 0⟩ : StreamState).sentMessageId = some 1 ∧
        (⟨"a", none, none, none, false⟩ : ParsedDirectives).cleaned =
          (⟨.edit, some 1, "a", 0⟩ : StreamState).lastSentText ∧
        (⟨"a", none, none, none, false⟩ : ParsedDirectives).isSilent = false ∧
        (⟨"a", none, none, none, false⟩ : ParsedDirectives).react = none) ∧
      (flushStep (fun s => [s]) none 7 ⟨.edit, some 1, "a", 0⟩
          ⟨"a", none, none, none, false⟩ 5000 false).2 = [] :=
  ⟨⟨rfl, rfl, rfl, rfl⟩,
    C7_no_resend_unchanged (fun s => [s]) none 7 ⟨.edit, some 1, "a", 0⟩
      ⟨"a", none, none, none, false⟩ 5000 false 1 rfl rfl rfl rfl⟩

/-- A hit returned by one search path (`RecallHit` in
`src/recall/store.ts`): only the id and the path's own score matter to the
fusion; the metadata columns ride along unchanged. -/
structure RecallHit where
  id : Nat
  score : ℚ
deriving DecidableEq, Repr

inductive MatchType
  | fts
  | vector
  | hybrid
deriving DecidableEq, Repr

/-- One value of the `scores` map in `src/recall/search.ts` (line 72): the
hit, the accumulated RRF score, and the set of contributing sources
(`types`), modelled as two booleans. -/
structure ScoreEntry where
  id : Nat
  score : ℚ
  inFts : Bool
  inVec : Bool
deriving DecidableEq, Repr

/-- `SearchResult` from `src/recall/search.ts` (lines 8-10). -/
structure SearchResult where
  id : Nat
  score : ℚ
  matchType : MatchType
deriving DecidableEq, Repr

/-- One iteration of the RRF loops (`search.ts` lines 74-94): contribute
`1/(k + i + 1)` with `k = 60` for the hit at zero-based rank `i`, updating
the existing map entry (adding the source tag) or inserting a new one.
`tagFts` says which of the two loops is running. -/
def addHit (tagFts : Bool) (acc : List ScoreEntry) (i : Nat) (h : RecallHit) :
    List ScoreEntry :=
  let rrf : ℚ := 1 / (60 + (i : ℚ) + 1)
  if acc.any (fun e => e.id == h.id) then
    acc.map (fun e =>
      if e.id == h.id then
        { e with
          score := e.score + rrf
          inFts := e.inFts || tagFts
          inVec := e.inVec || !tagFts }
      else e)
  else
    acc ++ [⟨h.id, rrf, tagFts, !tagFts⟩]

/-- One whole RRF loop over a ranked list, starting at rank `start`. -/
def addList (tagFts : Bool) (acc : List ScoreEntry) (start : Nat) :
    List RecallHit → List ScoreEntry
  | [] => acc
  | h :: rest => addList tagFts (addHit tagFts acc start h) (start + 1) rest

/-- The `scores` map after both RRF loops, in insertion order (the JS `Map`
preserves it): the FTS loop first, then the vector loop. -/
def rrfEntries (fts vec : List RecallHit) : List ScoreEntry :=
  addList false (addList true [] 0 fts) 0 vec

/-- The RRF contribution of one ranked list to a given id when the list's
first element has rank `start`: `1/(60 + rank + 1)`, or 0 when absent. -/
def rankFrom (l : List RecallHit) (start : Nat) (id : Nat) : ℚ :=
  match l.findIdx? (fun h => h.id == id) with
  | some i => 1 / (60 + (start : ℚ) + (i : ℚ) + 1)
  | none => 0

/-- The RRF contribution of a full ranked list (ranks from 0). -/
def rankScore (l : List RecallHit) (id : Nat) : ℚ := rankFrom l 0 id

/-- `search` from `src/recall/search.ts` (lines 59-105), from the two path
result lists onward (the FTS query and the embedding lookup are external):
early-return when one list is empty, otherwise RRF fusion, descending sort
by fused score, top `limit`, and a source tag. -/
def hybridSearch (fts vec : List RecallHit) (limit : Nat) : List SearchResult :=
  if fts = [] && vec = [] then []
  else if fts = [] then (vec.take limit).map (fun h => ⟨h.id, h.score, .vector⟩)
  else if vec = [] then (fts.take limit).map (fun h => ⟨h.id, h.score, .fts⟩)
  else
    (((rrfEntries fts vec).insertionSort (fun a b => b.score ≤ a.score)).take limit).map
      (fun e => ⟨e.id, e.score,
        if e.inFts && e.inVec then .hybrid else if e.inFts then .fts else .vector⟩)

theorem rankFrom_cons_self (h : RecallHit) (rest : List RecallHit) (start : Nat) :
    rankFrom (h :: rest) start h.id = 1 / (60 + (start : ℚ) + 1) := by
  unfold rankFrom
  rw [List.findIdx?_cons]
  simp

theorem rankFrom_cons_ne {h : RecallHit} {id : Nat} (rest : List RecallHit)
    (start : Nat) (hne : id ≠ h.id) :
    rankFrom (h :: rest) start id = rankFrom rest (start + 1) id := by
  unfold rankFrom
  rw [List.findIdx?_cons]
  have hb : (h.id == id) = false := by
    rw [beq_eq_false_iff_ne]
    exact Ne.symm hne
  rw [hb]
  simp only [Bool.false_eq_true, if_false, List.findIdx?_succ]
  cases hfind : rest.findIdx? (fun x => x.id == id) with
  | none => simp [hfind]
  | some i =>
    simp only [hfind]
    rw [show Option.map (fun i => i + 1) (some i) = some (i + 1) from rfl]
    push_cast
    ring_nf

theorem rankFrom_eq_zero {l : List RecallHit} {id : Nat} (start : Nat)
    (hmem : id ∉ l.map RecallHit.id) :
    rankFrom l start id = 0 := by
  unfold rankFrom
  have : l.findIdx? (fun h => h.id == id) = none := by
    rw [List.findIdx?_eq_none_iff]
    intro x hx
    simp only [beq_eq_false_iff_ne, ne_eq]
    intro hc
    exact hmem (List.mem_map.mpr ⟨x, hx, hc⟩)
  rw [this]

theorem addHit_mem {tagFts : Bool} {acc : List ScoreEntry} {start : Nat} {h : RecallHit} :
    ∀ e' ∈ addHit tagFts acc start h,
      (∃ e0 ∈ acc, e'.id = e0.id ∧
        (e0.id = h.id →
          e' = { e0 with
            score := e0.score + 1 / (60 + (start : ℚ) + 1)
            inFts := e0.inFts || tagFts
            inVec := e0.inVec || !tagFts }) ∧
        (e0.id ≠ h.id → e' = e0)) ∨
      ((∀ e0 ∈ acc, h.id ≠ e0.id) ∧
        e' = ⟨h.id, 1 / (60 + (start : ℚ) + 1), tagFts, !tagFts⟩) := by
  intro e' he'
  unfold addHit at he'
  by_cases hany : acc.any (fun e => e.id == h.id)
  · simp only [hany, if_true] at he'
    rcases List.mem_map.mp he' with ⟨e0, he0, he0e⟩
    by_cases hid : e0.id = h.id
    · refine Or.inl ⟨e0, he0, ?_, fun heq => ?_, fun hne => absurd hid hne⟩
      · rw [← he0e]
        simp [hid]
      · rw [← he0e]
        simp [hid]
    · refine Or.inl ⟨e0, he0, ?_, fun heq => absurd heq hid, fun _ => ?_⟩
      · rw [← he0e]
        simp [hid]
      · rw [← he0e]
        simp [hid]
  · simp only [hany, if_false] at he'
    rcases List.mem_append.mp he' with hacc | hnew
    · have hfresh : ∀ e ∈ acc, (e.id == h.id) = false := by
        intro e he
        by_contra hc
        exact hany (List.any_eq_true.mpr ⟨e, he, by simpa using hc⟩)
      refine Or.inl ⟨e', hacc, rfl, fun heq => ?_, fun _ => rfl⟩
      exact absurd heq (by simpa using hfresh e' hacc)
    · refine Or.inr ⟨?_, by simpa using hnew⟩
      intro e0 he0
      intro hc
      exact hany (List.any_eq_true.mpr ⟨e0, he0, by simp [hc.symm]⟩)

theorem addHit_covers_acc {tagFts : Bool} {acc : List ScoreEntry} {start : Nat}
    {h : RecallHit} :
    ∀ e0 ∈ acc, ∃ e' ∈ addHit tagFts acc start h, e'.id = e0.id := by
  intro e0 he0
  unfold addHit
  by_cases hany : acc.any (fun e => e.id == h.id)
  · simp only [hany, if_true]
    by_cases hid : e0.id = h.id
    · exact ⟨_, List.mem_map.mpr ⟨e0, he0, rfl⟩, by simp [hid]⟩
    · exact ⟨_, List.mem_map.mpr ⟨e0, he0, rfl⟩, by simp [hid]⟩
  · simp only [hany, if_false]
    exact ⟨e0, List.mem_append.mpr (Or.inl he0), rfl⟩

theorem addHit_covers_hit {tagFts : Bool} {acc : List ScoreEntry} {start : Nat}
    {h : RecallHit} :
    ∃ e' ∈ addHit tagFts acc start h, e'.id = h.id := by
  unfold addHit
  by_cases hany : acc.any (fun e => e.id == h.id)
  · simp only [hany, if_true]
    rcases List.any_eq_true.mp hany with ⟨e0, he0, heq⟩
    have hid : e0.id = h.id := by simpa using heq
    exact ⟨_, List.mem_map.mpr ⟨e0, he0, rfl⟩, by simp [hid]⟩
  · simp only [hany, if_false]
    exact ⟨_, List.mem_append.mpr (Or.inr (List.mem_singleton.mpr rfl)), rfl⟩

theorem addList_covers {tagFts : Bool} :
    ∀ (l : List RecallHit) (start : Nat) (acc : List ScoreEntry),
      (∀ e0 ∈ acc, ∃ e ∈ addList tagFts acc start l, e.id = e0.id) ∧
      (∀ h ∈ l, ∃ e ∈ addList tagFts acc start l, e.id = h.id) := by
  intro l
  induction l with
  | nil =>
    intro start acc
    exact ⟨fun e0 he0 => ⟨e0, he0, rfl⟩, fun h hh => absurd hh (List.not_mem_nil h)⟩
  | cons h rest ih =>
    intro start acc
    constructor
    · intro e0 he0
      rcases @addHit_covers_acc tagFts acc start h e0 he0 with
        ⟨e1, he1, hid1⟩
      rcases (ih (start + 1) (addHit tagFts acc start h)).1 e1 he1 with ⟨e, he, hid⟩
      exact ⟨e, he, hid.trans hid1⟩
    · intro h' hh'
      rcases List.mem_cons.mp hh' with heq | hmem
      · rcases @addHit_covers_hit tagFts acc start h with ⟨e1, he1, hid1⟩
        rcases (ih (start + 1) (addHit tagFts acc start h)).1 e1 he1 with ⟨e, he, hid⟩
        refine ⟨e, he, ?_⟩
        rw [heq]
        exact hid.trans hid1
      · exact (ih (start + 1) (addHit tagFts acc start h)).2 h' hmem

theorem addList_mem {tagFts : Bool} :
    ∀ (l : List RecallHit) (start : Nat) (acc : List ScoreEntry),
      (l.map RecallHit.id).Nodup →
      ∀ e ∈ addList tagFts acc start l,
        (∃ e0 ∈ acc, e.id = e0.id ∧
          e.score = e0.score + rankFrom l start e.id ∧
          e.inFts = (e0.inFts || (tagFts && decide (e.id ∈ l.map RecallHit.id))) ∧
          e.inVec = (e0.inVec || (!tagFts && decide (e.id ∈ l.map RecallHit.id)))) ∨
        ((∀ e0 ∈ acc, e.id ≠ e0.id) ∧ e.id ∈ l.map RecallHit.id ∧
          e.score = rankFrom l start e.id ∧ e.inFts = tagFts ∧ e.inVec = !tagFts) := by
  intro l
  induction l with
  | nil =>
    intro start acc _ e he
    refine Or.inl ⟨e, he, rfl, ?_, by simp, by simp⟩
    have : rankFrom ([] : List RecallHit) start e.id = 0 := by
      simp [rankFrom, List.findIdx?_nil]
    rw [this]
    ring
  | cons h rest ih =>
    intro start acc hnd e he
    have hnd' : h.id ∉ rest.map RecallHit.id ∧ (rest.map RecallHit.id).Nodup := by
      rw [List.map_cons, List.nodup_cons] at hnd
      exact hnd
    have hmemHead : h.id ∈ (h :: rest).map RecallHit.id := by simp
    rcases ih (start + 1) (addHit tagFts acc start h) hnd'.2 e he with
      ⟨e1, he1, hid1, hsc1, hft1, hvc1⟩ | ⟨hfresh1, hmem1, hsc1, hft1, hvc1⟩
    · rcases addHit_mem e1 he1 with ⟨e0, he0, hid0, hupd, hkeep⟩ | ⟨hfresh0, he1eq⟩
      · by_cases hcase : e0.id = h.id
        · have he1v := hupd hcase
          have heid : e.id = h.id := by rw [hid1, hid0, hcase]
          have hz : rankFrom rest (start + 1) e.id = 0 := by
            rw [heid]
            exact rankFrom_eq_zero _ hnd'.1
          have hA : decide (e.id ∈ rest.map RecallHit.id) = false := by
            rw [heid]
            simpa using hnd'.1
          have hB : decide (e.id ∈ (h :: rest).map RecallHit.id) = true := by
            rw [heid]
            simpa using hmemHead
          refine Or.inl ⟨e0, he0, hid1.trans hid0, ?_, ?_, ?_⟩
          · rw [hsc1, hz, he1v, heid, rankFrom_cons_self]
            simp only [add_zero]
          · rw [hft1, he1v, hA, hB]
            simp
          · rw [hvc1, he1v, hA, hB]
            simp
        · have he1v := hkeep hcase
          have hne : e.id ≠ h.id := by
            rw [hid1, hid0]
            exact hcase
          have hDD : decide (e.id ∈ (h :: rest).map RecallHit.id) =
              decide (e.id ∈ rest.map RecallHit.id) := by
            rw [decide_eq_decide]
            simp [hne]
          refine Or.inl ⟨e0, he0, hid1.trans hid0, ?_, ?_, ?_⟩
          · rw [hsc1, he1v, rankFrom_cons_ne rest start hne]
          · rw [hft1, he1v, hDD]
          · rw [hvc1, he1v, hDD]
      · have heid : e.id = h.id := by rw [hid1, he1eq]
        have hz : rankFrom rest (start + 1) e.id = 0 := by
          rw [heid]
          exact rankFrom_eq_zero _ hnd'.1
        have hA : decide (e.id ∈ rest.map RecallHit.id) = false := by
          rw [heid]
          simpa using hnd'.1
        refine Or.inr ⟨?_, ?_, ?_, ?_, ?_⟩
        · intro e0 he0
          rw [heid]
          exact hfresh0 e0 he0
        · rw [heid]
          exact hmemHead
        · rw [hsc1, hz, he1eq, heid, rankFrom_cons_self]
          simp only [add_zero]
        · rw [hft1, he1eq, hA]
          simp
        · rw [hvc1, he1eq, hA]
          simp
    · have hne : e.id ≠ h.id := by
        rcases @addHit_covers_hit tagFts acc start h with ⟨e1, he1, hid1⟩
        intro hc
        exact hfresh1 e1 he1 (by rw [hc, ← hid1])
      refine Or.inr ⟨?_, ?_, ?_, hft1, hvc1⟩
      · intro e0 he0
        rcases @addHit_covers_acc tagFts acc start h e0 he0 with
          ⟨e1, he1, hid1⟩
        intro hc
        exact hfresh1 e1 he1 (by rw [hc, ← hid1])
      · rw [List.map_cons]
        exact List.mem_cons_of_mem _ hmem1
      · rw [hsc1, rankFrom_cons_ne rest start hne]

theorem rrfEntries_char {fts vec : List RecallHit}
    (hnf : (fts.map RecallHit.id).Nodup) (hnv : (vec.map RecallHit.id).Nodup) :
    ∀ e ∈ rrfEntries fts vec,
      e.score = rankScore fts e.id + rankScore vec e.id ∧
      (e.inFts = true ↔ e.id ∈ fts.map RecallHit.id) ∧
      (e.inVec = true ↔ e.id ∈ vec.map RecallHit.id) ∧
      (e.id ∈ fts.map RecallHit.id ∨ e.id ∈ vec.map RecallHit.id) := by
  intro e he
  have hE : ∀ e1 ∈ addList true [] 0 fts,
      e1.id ∈ fts.map RecallHit.id ∧ e1.score = rankScore fts e1.id ∧
      e1.inFts = true ∧ e1.inVec = false := by
    intro e1 he1
    rcases addList_mem fts 0 [] hnf e1 he1 with ⟨e0, he0, _⟩ | ⟨_, hm, hs, hfl, hvl⟩
    · exact absurd he0 (List.not_mem_nil e0)
    · exact ⟨hm, hs, hfl, by simpa using hvl⟩
  have hCov : ∀ i ∈ fts.map RecallHit.id, ∃ e1 ∈ addList true [] 0 fts, e1.id = i := by
    intro i hi
    rcases List.mem_map.mp hi with ⟨hhit, hh, hid⟩
    rcases (addList_covers fts 0 []).2 hhit hh with ⟨e1, he1, hi1⟩
    exact ⟨e1, he1, by rw [hi1, hid]⟩
  rcases addList_mem vec 0 (addList true [] 0 fts) hnv e he with
    ⟨e0, he0, hid0, hsc, hft, hvc⟩ | ⟨hfresh, hm, hs, hfl, hvl⟩
  · rcases hE e0 he0 with ⟨hm0, hs0, hf0, hv0⟩
    have hmF : e.id ∈ fts.map RecallHit.id := by rw [hid0]; exact hm0
    refine ⟨?_, ?_, ?_, Or.inl hmF⟩
    · calc e.score = e0.score + rankFrom vec 0 e.id := hsc
        _ = rankScore fts e0.id + rankScore vec e.id := by rw [hs0]; rfl
        _ = rankScore fts e.id + rankScore vec e.id := by rw [hid0]
    · rw [hft, hf0]
      simp [hmF]
    · rw [hvc, hv0]
      simp
  · have hnfts : e.id ∉ fts.map RecallHit.id := by
      intro hc
      rcases hCov e.id hc with ⟨e1, he1, hi1⟩
      exact hfresh e1 he1 hi1.symm
    refine ⟨?_, ?_, ?_, Or.inr hm⟩
    · rw [hs]
      have h0 : rankScore fts e.id = 0 := rankFrom_eq_zero 0 hnfts
      rw [h0, zero_add]
      rfl
    · rw [hfl]
      simp [hnfts]
    · rw [hvl]
      simp [hm]

/-- The source tag of a result reflects exactly which search paths its id
appeared in. -/
def tagMatches (fts vec : List RecallHit) (r : SearchResult) : Prop :=
  (r.matchType = .hybrid ↔ (r.id ∈ fts.map RecallHit.id ∧ r.id ∈ vec.map RecallHit.id)) ∧
  (r.matchType = .fts ↔ (r.id ∈ fts.map RecallHit.id ∧ r.id ∉ vec.map RecallHit.id)) ∧
  (r.matchType = .vector ↔ (r.id ∉ fts.map RecallHit.id ∧ r.id ∈ vec.map RecallHit.id))

/-- Every result's score is the sum of the reciprocal-rank contributions
`1/(60 + rank + 1)` of the lists its id appears in, and its tag reflects
the contributing sources. -/
def rrfScored (fts vec : List RecallHit) (limit : Nat) : Prop :=
  ∀ r ∈ hybridSearch fts vec limit,
    r.score = rankScore fts r.id + rankScore vec r.id ∧ tagMatches fts vec r

/-- The results are in descending fused-score order. -/
def sortedByScore (res : List SearchResult) : Prop :=
  res.Sorted (fun a b => b.score ≤ a.score)

/-- The returned results are the top of the candidate pool: every candidate
left out scores no higher than any returned result. -/
def topOfEntries (fts vec : List RecallHit) (limit : Nat) : Prop :=
  ∀ r ∈ hybridSearch fts vec limit, ∀ e ∈ rrfEntries fts vec,
    e.id ∉ (hybridSearch fts vec limit).map SearchResult.id → e.score ≤ r.score

/-- C8: when both paths return non-empty lists, the hybrid search fuses
them with RRF (k = 60, zero-based ranks), returns the top `limit`
candidates in descending fused-score order, and tags each result `hybrid`
exactly when it appeared in both lists, else by its single source. -/
theorem C8_hybrid_rrf (fts vec : List RecallHit) (limit : Nat)
    (hf : fts ≠ []) (hv : vec ≠ [])
    (hnf : (fts.map RecallHit.id).Nodup) (hnv : (vec.map RecallHit.id).Nodup) :
    rrfScored fts vec limit ∧ sortedByScore (hybridSearch fts vec limit) ∧
      (hybridSearch fts vec limit).length = min limit (rrfEntries fts vec).length ∧
      topOfEntries fts vec limit := by
  have hsearch : hybridSearch fts vec limit =
      (((rrfEntries fts vec).insertionSort (fun a b => b.score ≤ a.score)).take limit).map
        (fun e => ⟨e.id, e.score,
          if e.inFts && e.inVec then .hybrid else if e.inFts then .fts else .vector⟩) := by
    unfold hybridSearch
    rw [if_neg (by simp [hf]), if_neg hf, if_neg hv]
  haveI : IsTotal ScoreEntry (fun a b => b.score ≤ a.score) :=
    ⟨fun a b => le_total b.score a.score⟩
  haveI : IsTrans ScoreEntry (fun a b => b.score ≤ a.score) :=
    ⟨fun _ _ _ h1 h2 => le_trans h2 h1⟩
  have hsorted := List.sorted_insertionSort
    (fun a b : ScoreEntry => b.score ≤ a.score) (rrfEntries fts vec)
  have hmemEntries : ∀ e ∈ ((rrfEntries fts vec).insertionSort
      (fun a b => b.score ≤ a.score)).take limit, e ∈ rrfEntries fts vec := by
    intro e he
    exact ((List.perm_insertionSort _ _).mem_iff).mp (List.take_subset _ _ he)
  refine ⟨?_, ?_, ?_, ?_⟩
  · intro r hr
    rw [hsearch] at hr
    rcases List.mem_map.mp hr with ⟨e, he, her⟩
    rcases rrfEntries_char hnf hnv e (hmemEntries e he) with ⟨hsc, hiff, hivf, hcover⟩
    have hrid : r.id = e.id := by rw [← her]
    have hrsc : r.score = e.score := by rw [← her]
    have hMT : r.matchType = (if e.inFts && e.inVec then MatchType.hybrid
        else if e.inFts then .fts else .vector) := by rw [← her]
    refine ⟨by rw [hrsc, hrid]; exact hsc, ?_⟩
    cases hFtsB : e.inFts <;> cases hVecB : e.inVec
    · exfalso
      rcases hcover with hmF | hmV
      · exact absurd (hiff.mpr hmF) (by simp [hFtsB])
      · exact absurd (hivf.mpr hmV) (by simp [hVecB])
    · have hnF : r.id ∉ fts.map RecallHit.id := by
        rw [hrid]
        intro hc
        exact absurd (hiff.mpr hc) (by simp [hFtsB])
      have hmV : r.id ∈ vec.map RecallHit.id := by
        rw [hrid]
        exact hivf.mp hVecB
      rw [hFtsB, hVecB] at hMT
      simp only [Bool.false_and, Bool.false_eq_true, if_false] at hMT
      exact ⟨by simp [hMT, hnF], by simp [hMT, hnF], by simp [hMT, hnF, hmV]⟩
    · have hmF : r.id ∈ fts.map RecallHit.id := by
        rw [hrid]
        exact hiff.mp hFtsB
      have hnV : r.id ∉ vec.map RecallHit.id := by
        rw [hrid]
        intro hc
        exact absurd (hivf.mpr hc) (by simp [hVecB])
      rw [hFtsB, hVecB] at hMT
      simp only [Bool.and_false, Bool.false_eq_true, if_false, if_true] at hMT
      exact ⟨by simp [hMT, hnV], by simp [hMT, hmF, hnV], by simp [hMT, hmF]⟩
    · have hmF : r.id ∈ fts.map RecallHit.id := by
        rw [hrid]
        exact hiff.mp hFtsB
      have hmV : r.id ∈ vec.map RecallHit.id := by
        rw [hrid]
        exact hivf.mp hVecB
      rw [hFtsB, hVecB] at hMT
      simp only [Bool.and_self, if_true] at hMT
      exact ⟨by simp [hMT, hmF, hmV], by simp [hMT, hmV], by simp [hMT, hmF]⟩
  · rw [hsearch]
    apply List.Pairwise.map
    · intro a b hab
      exact hab
    · exact hsorted.sublist (List.take_sublist _ _)
  · rw [hsearch]
    rw [List.length_map, List.length_take, (List.perm_insertionSort _ _).length_eq]
  · intro r hr e hein hid
    rw [hsearch] at hr hid
    rcases List.mem_map.mp hr with ⟨et, het, hetr⟩
    have hesorted : e ∈ (rrfEntries fts vec).insertionSort
        (fun a b => b.score ≤ a.score) := ((List.perm_insertionSort _ _).mem_iff).mpr hein
    rw [← List.take_append_drop limit ((rrfEntries fts vec).insertionSort
      (fun a b => b.score ≤ a.score))] at hesorted
    rcases List.mem_append.mp hesorted with htake | hdrop
    · exfalso
      apply hid
      refine List.mem_map.mpr ⟨_, List.mem_map.mpr ⟨e, htake, rfl⟩, rfl⟩
    · have hsp := hsorted
      rw [← List.take_append_drop limit ((rrfEntries fts vec).insertionSort
        (fun a b => b.score ≤ a.score))] at hsp
      have hrel := (List.pairwise_append.mp hsp).2.2 et het e hdrop
      have : r.score = et.score := by rw [← hetr]
      rw [this]
      exact hrel

/-- The fusion example of the spec: FTS finds only chunk 1, the vector path
ranks chunk 2 before chunk 1. -/
def c8Fts : List RecallHit := [⟨1, 1⟩]

def c8Vec : List RecallHit := [⟨2, 9/10⟩, ⟨1, 4/5⟩]

theorem C8_hybrid_rrf_witness :
    (c8Fts ≠ [] ∧ c8Vec ≠ [] ∧ (c8Fts.map RecallHit.id).Nodup ∧
        (c8Vec.map RecallHit.id).Nodup) ∧
      (rrfScored c8Fts c8Vec 10 ∧ sortedByScore (hybridSearch c8Fts c8Vec 10) ∧
        (hybridSearch c8Fts c8Vec 10).length = min 10 (rrfEntries c8Fts c8Vec).length ∧
        topOfEntries c8Fts c8Vec 10) :=
  ⟨⟨by decide, by decide, by decide, by decide⟩,
    C8_hybrid_rrf c8Fts c8Vec 10 (by decide) (by decide) (by decide) (by decide)⟩
